import Mathlib

/-
Formal model of the tornet fork (src/tornet/tornet.py): the torrc
exit-policy editor, the RU-first-with-fallback policy applier, the
rotation-interval parser and the rotation loop, with theorems checking
the claims of the specification.

Strings are modelled as lists of characters; file contents are a single
character list, and readlines mirrors the Python file.readlines method (split
after each newline, keeping the terminator).  External effects (network
probes, the random generator, service restarts) are modelled as explicit
parameters and event traces.
-/

namespace Tornet

/-- Character list of a Python string literal. -/
def pystr (s : String) : List Char := s.data

/-- Python str.strip whitespace set (space, tab, newline, CR, VT, FF). -/
def isSpace (c : Char) : Bool :=
  c = ' ' || c = '\t' || c = '\n' || c = '\r' || c = '\x0b' || c = '\x0c'

/-- Python str.lstrip. -/
def lstrip (s : List Char) : List Char := s.dropWhile isSpace

/-- Python str.rstrip. -/
def rstrip (s : List Char) : List Char := (s.reverse.dropWhile isSpace).reverse

/-- Python str.strip. -/
def strip (s : List Char) : List Char := rstrip (lstrip s)

/-- Python str.lower (ASCII case folding suffices for the country codes used). -/
def lower (s : List Char) : List Char := s.map Char.toLower

/-- Python str.startswith. -/
def startswith : List Char → List Char → Bool
  | [], _ => true
  | _ :: _, [] => false
  | a :: ps, b :: ss => a = b && startswith ps ss

/-- Helper for readlines: accumulates the current (reversed) partial line. -/
def readlinesAux : List Char → List Char → List (List Char)
  | [], acc => if acc.isEmpty then [] else [acc.reverse]
  | c :: cs, acc =>
    if c = '\n' then (acc.reverse ++ ['\n']) :: readlinesAux cs []
    else readlinesAux cs (c :: acc)

/-- Python file.readlines: split after each newline, keeping the terminator;
a final fragment without a newline is kept as a last line. -/
def readlines (s : List Char) : List (List Char) := readlinesAux s []

/-- The ExitNodes directive keyword. -/
def exitKw : List Char := pystr "ExitNodes"

/-- The StrictNodes directive keyword. -/
def strictKw : List Char := pystr "StrictNodes"

/-- is_policy_line from set_tor_exit_policy: the stripped line starts with
ExitNodes or with StrictNodes. -/
def is_policy_line (s : List Char) : Bool :=
  startswith exitKw (strip s) || startswith strictKw (strip s)

/-- The marker string appended before the directives, as written
(it contains a leading newline, so on re-reading it spans two lines). -/
def marker_chars : List Char := pystr "\n# --- tornet exit policy ---\n"

/-- The marker comment as a single line of a re-read file. -/
def inner_marker_line : List Char := pystr "# --- tornet exit policy ---\n"

/-- The StrictNodes line written for a given strictness flag. -/
def strict_line_of (strict : Bool) : List Char :=
  pystr (if strict then "StrictNodes 1\n" else "StrictNodes 0\n")

/-- The ExitNodes line written for a given (non-empty after strip) exit string. -/
def exit_line_of (exit_nodes : List Char) : List Char :=
  pystr "ExitNodes " ++ strip exit_nodes ++ ['\n']

/-- set_tor_exit_policy, acting on the file content: read all lines, drop
every line whose stripped form starts with ExitNodes or StrictNodes,
append the marker, the optional ExitNodes line (only when the exit string
is non-empty after strip) and the StrictNodes line, and write the lines
back (writelines, i.e. concatenation).  Read/write failures are modelled
separately in set_tor_exit_policy_io. -/
def set_tor_exit_policy (content exit_nodes : List Char) (strict : Bool) : List Char :=
  let lines := readlines content
  let kept := lines.filter (fun ln => ! is_policy_line ln)
  let with_marker := kept ++ [marker_chars]
  let with_exit :=
    if strip exit_nodes = [] then with_marker
    else with_marker ++ [exit_line_of exit_nodes]
  (with_exit ++ [strict_line_of strict]).flatten

/-- Concatenation of the lines kept by the policy filter. -/
def joined_kept (c : List Char) : List Char :=
  ((readlines c).filter (fun ln => ! is_policy_line ln)).flatten

/-- The lines of the rewritten file that precede the marker comment line. -/
def pre_lines (c : List Char) : List (List Char) :=
  readlines (joined_kept c ++ ['\n'])

/-- Characters appended after the marker: optional ExitNodes line, then the
StrictNodes line. -/
def tail_chars (e : List Char) (s : Bool) : List Char :=
  (if strip e = [] then [] else exit_line_of e) ++ strict_line_of s

/-- Lines of a file whose stripped form starts with ExitNodes. -/
def exit_lines (c : List Char) : List (List Char) :=
  (readlines c).filter (fun ln => startswith exitKw (strip ln))

/-- Lines of a file whose stripped form starts with StrictNodes. -/
def strict_lines (c : List Char) : List (List Char) :=
  (readlines c).filter (fun ln => startswith strictKw (strip ln))

example : readlines (pystr "a\nExitNodes x\n") = [pystr "a\n", pystr "ExitNodes x\n"] := by decide

example : set_tor_exit_policy (pystr "a\n") (pystr "\x7bru\x7d") true =
    pystr "a\n\n# --- tornet exit policy ---\nExitNodes \x7bru\x7d\nStrictNodes 1\n" := by decide

example : is_policy_line (pystr "  StrictNodes 0") = true := by decide

/-
Line-structure infrastructure: readlines is a left inverse of flatten on
well-formed line lists, and the rewritten file decomposes into the kept
lines, the marker and the directive tail.
-/

/-- Splitting dropWhile over an append. -/
theorem dropWhile_append_my (p : Char → Bool) (a b : List Char) :
    (a ++ b).dropWhile p =
      if (a.dropWhile p).isEmpty then b.dropWhile p else a.dropWhile p ++ b := by
  induction a with
  | nil => simp
  | cons x xs ih =>
    by_cases h : p x
    · simp [List.dropWhile_cons, h, ih]
    · simp [List.dropWhile_cons, h]

/-- Flattening the lines of readlinesAux recovers the input. -/
theorem readlinesAux_flatten (s : List Char) :
    ∀ acc, (readlinesAux s acc).flatten = acc.reverse ++ s := by
  induction s with
  | nil =>
    intro acc
    by_cases h : acc.isEmpty
    · simp [readlinesAux, h, List.isEmpty_iff.mp h]
    · simp [readlinesAux, h]
  | cons c cs ih =>
    intro acc
    by_cases h : c = '\n'
    · subst h; simp [readlinesAux, ih]
    · simp [readlinesAux, h, ih]

/-- Flattening the lines of a file recovers the file. -/
theorem readlines_flatten (s : List Char) : (readlines s).flatten = s := by
  simpa [readlines] using readlinesAux_flatten s []

/-- A newline-free chunk followed by a newline is read back as one line. -/
theorem readlinesAux_line (x rest : List Char) :
    '\n' ∉ x → ∀ acc, readlinesAux (x ++ '\n' :: rest) acc =
      (acc.reverse ++ x ++ ['\n']) :: readlinesAux rest [] := by
  induction x with
  | nil => intro _ acc; simp [readlinesAux]
  | cons c cs ih =>
    intro hx acc
    have hc : ¬ c = '\n' := fun h => hx (h ▸ List.mem_cons_self c cs)
    have hcs : '\n' ∉ cs := fun h => hx (List.mem_cons_of_mem _ h)
    simp only [List.cons_append, readlinesAux, if_neg hc, List.append_eq]
    rw [ih hcs (c :: acc)]
    simp

/-- readlines of a newline-free chunk, a newline and a remainder. -/
theorem readlines_line (x rest : List Char) (hx : '\n' ∉ x) :
    readlines (x ++ '\n' :: rest) = (x ++ ['\n']) :: readlines rest := by
  simpa [readlines] using readlinesAux_line x rest hx []

/-- Well-formed line lists: every line is newline-terminated with no inner
newline, except that a final line may lack the terminator. -/
inductive GoodLines : List (List Char) → Prop
  | nil : GoodLines []
  | last (x : List Char) : x ≠ [] → '\n' ∉ x → GoodLines [x]
  | cons (x : List Char) (xs : List (List Char)) :
      '\n' ∉ x → GoodLines xs → GoodLines ((x ++ ['\n']) :: xs)

/-- readlinesAux produces well-formed line lists. -/
theorem goodLines_readlinesAux (s : List Char) :
    ∀ acc, '\n' ∉ acc → GoodLines (readlinesAux s acc) := by
  induction s with
  | nil =>
    intro acc h
    by_cases he : acc.isEmpty
    · simpa [readlinesAux, he] using GoodLines.nil
    · have hne : acc ≠ [] := fun hh => he (by simp [hh])
      simpa [readlinesAux, he] using
        GoodLines.last acc.reverse (by simpa using hne) (by simpa using h)
  | cons c cs ih =>
    intro acc h
    by_cases hc : c = '\n'
    · subst hc
      simpa [readlinesAux] using
        GoodLines.cons acc.reverse _ (by simpa using h) (ih [] (by simp))
    · simpa [readlinesAux, hc] using
        ih (c :: acc) (by
          intro hm
          rcases List.mem_cons.mp hm with h1 | h1
          · exact hc h1.symm
          · exact h h1)

/-- The lines of any file content are well-formed. -/
theorem goodLines_readlines (s : List Char) : GoodLines (readlines s) :=
  goodLines_readlinesAux s [] (by simp)

/-- Filtering preserves well-formedness of line lists. -/
theorem goodLines_filter (p : List Char → Bool) :
    ∀ {xs : List (List Char)}, GoodLines xs → GoodLines (xs.filter p) := by
  intro xs h
  induction h with
  | nil => simpa using GoodLines.nil
  | last x hne hnl =>
    by_cases hp : p x
    · simpa [List.filter_cons, hp] using GoodLines.last x hne hnl
    · simpa [List.filter_cons, hp] using GoodLines.nil
  | cons x xs hnl _ ih =>
    by_cases hp : p (x ++ ['\n'])
    · simpa [List.filter_cons, hp] using GoodLines.cons x _ hnl ih
    · simpa [List.filter_cons, hp] using ih

/-- Reading a flattened well-formed line list followed by a newline and a
remainder splits at the newline. -/
theorem readlines_flatten_append (B : List Char) :
    ∀ {X : List (List Char)}, GoodLines X →
      readlines (X.flatten ++ '\n' :: B) =
        readlines (X.flatten ++ ['\n']) ++ readlines B := by
  intro X h
  induction h with
  | nil => simp [readlines, readlinesAux]
  | last x hne hnl =>
    have h1 : [x].flatten = x := by simp
    rw [h1, readlines_line x B hnl]
    have h2 : x ++ ['\n'] = x ++ '\n' :: ([] : List Char) := by simp
    rw [h2, readlines_line x [] hnl]
    simp [readlines, readlinesAux]
  | cons x xs hnl _ ih =>
    have h1 : ((x ++ ['\n']) :: xs).flatten ++ '\n' :: B =
        x ++ '\n' :: (xs.flatten ++ '\n' :: B) := by simp
    have h2 : ((x ++ ['\n']) :: xs).flatten ++ ['\n'] =
        x ++ '\n' :: (xs.flatten ++ ['\n']) := by simp
    rw [h1, h2, readlines_line _ _ hnl, readlines_line _ _ hnl, ih]
    simp

/-- No newline survives in the right-stripped part. -/
theorem rstrip_append_newline (y : List Char) : rstrip (y ++ ['\n']) = rstrip y := by
  have h : isSpace '\n' = true := by decide
  simp [rstrip, List.dropWhile_cons, h]

/-- Stripping ignores a trailing newline. -/
theorem strip_append_newline (x : List Char) : strip (x ++ ['\n']) = strip x := by
  unfold strip lstrip
  rw [dropWhile_append_my]
  by_cases h : (x.dropWhile isSpace).isEmpty
  · have h2 : List.dropWhile isSpace ['\n'] = [] := by decide
    simp [h, h2, rstrip, List.isEmpty_iff.mp h]
  · simp only [h, if_false]
    exact rstrip_append_newline _

/-- The policy-line test ignores a trailing newline. -/
theorem is_policy_append_newline (x : List Char) :
    is_policy_line (x ++ ['\n']) = is_policy_line x := by
  simp [is_policy_line, strip_append_newline]

/-- Every line read back from kept non-policy lines plus a final newline is
again a non-policy line. -/
theorem pre_keeps_nonpolicy :
    ∀ {X : List (List Char)}, GoodLines X →
      (∀ x ∈ X, is_policy_line x = false) →
      ∀ ln ∈ readlines (X.flatten ++ ['\n']), is_policy_line ln = false := by
  intro X h
  induction h with
  | nil =>
    intro _ ln hln
    have h1 : readlines (([] : List (List Char)).flatten ++ ['\n']) = [['\n']] := by decide
    rw [h1] at hln
    have h2 : ln = ['\n'] := by simpa using hln
    subst h2; decide
  | last x hne hnl =>
    intro hx ln hln
    have h1 : [x].flatten ++ ['\n'] = x ++ '\n' :: ([] : List Char) := by simp
    rw [h1, readlines_line x [] hnl] at hln
    have h2 : ln = x ++ ['\n'] := by simpa [readlines, readlinesAux] using hln
    subst h2
    rw [is_policy_append_newline]
    exact hx x (by simp)
  | cons x xs hnl _ ih =>
    intro hx ln hln
    have h1 : ((x ++ ['\n']) :: xs).flatten ++ ['\n'] =
        x ++ '\n' :: (xs.flatten ++ ['\n']) := by simp
    rw [h1, readlines_line _ _ hnl] at hln
    rcases List.mem_cons.mp hln with h2 | h2
    · subst h2; exact hx _ (by simp)
    · exact ih (fun y hy => hx y (List.mem_cons_of_mem _ hy)) ln h2

/-- Every line before the marker in the rewritten file is a non-policy line. -/
theorem pre_lines_nonpolicy (c : List Char) :
    ∀ ln ∈ pre_lines c, is_policy_line ln = false := by
  have hG : GoodLines ((readlines c).filter (fun ln => ! is_policy_line ln)) :=
    goodLines_filter _ (goodLines_readlines c)
  have hNP : ∀ x ∈ (readlines c).filter (fun ln => ! is_policy_line ln),
      is_policy_line x = false := by
    intro x hx
    have := (List.mem_filter.mp hx).2
    simpa using this
  intro ln hln
  exact pre_keeps_nonpolicy hG hNP ln (by simpa [pre_lines, joined_kept] using hln)

/-- The rewritten file, as characters: kept lines, marker, directive tail. -/
theorem set_chars_eq (c e : List Char) (s : Bool) :
    set_tor_exit_policy c e s = joined_kept c ++ marker_chars ++ tail_chars e s := by
  by_cases h : strip e = [] <;>
    simp [set_tor_exit_policy, joined_kept, tail_chars, h, List.append_assoc]

/-- The marker string is a newline followed by the marker comment line. -/
theorem marker_chars_eq : marker_chars = '\n' :: inner_marker_line := by decide

/-- The marker comment line body, without its terminator. -/
def inner_marker_body : List Char := pystr "# --- tornet exit policy ---"

theorem inner_marker_line_eq : inner_marker_line = inner_marker_body ++ ['\n'] := by decide

/-- The rewritten file, as lines: kept lines re-read, the marker comment,
the optional ExitNodes line and the StrictNodes line, in that order. -/
theorem set_lines_decomp (c e : List Char) (s : Bool) (he : '\n' ∉ strip e) :
    readlines (set_tor_exit_policy c e s) =
      pre_lines c ++ [inner_marker_line] ++
        (if strip e = [] then [] else [exit_line_of e]) ++ [strict_line_of s] := by
  have hG : GoodLines ((readlines c).filter (fun ln => ! is_policy_line ln)) :=
    goodLines_filter _ (goodLines_readlines c)
  have h1 : set_tor_exit_policy c e s =
      ((readlines c).filter (fun ln => ! is_policy_line ln)).flatten ++
        '\n' :: (inner_marker_line ++ tail_chars e s) := by
    rw [set_chars_eq, marker_chars_eq]
    simp [joined_kept]
  rw [h1, readlines_flatten_append _ hG]
  have h2 : readlines (inner_marker_line ++ tail_chars e s) =
      inner_marker_line :: readlines (tail_chars e s) := by
    rw [inner_marker_line_eq]
    have : inner_marker_body ++ ['\n'] ++ tail_chars e s =
        inner_marker_body ++ '\n' :: tail_chars e s := by simp
    rw [this, readlines_line _ _ (by decide)]
  have h6 : readlines (strict_line_of s) = [strict_line_of s] := by
    cases s <;> decide
  have h3 : readlines (tail_chars e s) =
      (if strip e = [] then [] else [exit_line_of e]) ++ [strict_line_of s] := by
    by_cases h : strip e = []
    · rw [show tail_chars e s = strict_line_of s by simp [tail_chars, h], if_pos h, h6]
      simp
    · rw [show tail_chars e s = exit_line_of e ++ strict_line_of s by simp [tail_chars, h],
        if_neg h]
      have hx : '\n' ∉ pystr "ExitNodes " ++ strip e := by
        intro hm
        rcases List.mem_append.mp hm with h4 | h4
        · revert h4; decide
        · exact he h4
      have h5 : exit_line_of e ++ strict_line_of s =
          (pystr "ExitNodes " ++ strip e) ++ '\n' :: strict_line_of s := by
        simp [exit_line_of]
      rw [h5, readlines_line _ _ hx, h6]
      simp [exit_line_of]
  rw [h2, h3]
  simp [pre_lines, joined_kept]

/-- A list starts with itself extended by anything. -/
theorem startswith_append_self (k d : List Char) : startswith k (k ++ d) = true := by
  induction k with
  | nil => rfl
  | cons a as ih => simp [startswith, ih]

/-- Differing heads defeat startswith. -/
theorem startswith_cons_ne (a b : Char) (h : ¬ a = b) (l m : List Char) :
    startswith (a :: l) (b :: m) = false := by
  simp [startswith, h]

/-- Stripping a string that begins and ends with non-whitespace keyword
characters keeps the keyword as a prefix. -/
theorem strip_keyword_append (k r : List Char) (hk : k ≠ [])
    (h1 : k.dropWhile isSpace = k) (h2 : k.reverse.dropWhile isSpace = k.reverse) :
    ∃ d, strip (k ++ r) = k ++ d := by
  have hke : (k.dropWhile isSpace).isEmpty = false := by
    rw [h1]
    cases k with
    | nil => exact absurd rfl hk
    | cons a l => rfl
  have hl : lstrip (k ++ r) = k ++ r := by
    unfold lstrip
    rw [dropWhile_append_my, hke]
    simp [h1]
  unfold strip
  rw [hl]
  unfold rstrip
  rw [List.reverse_append, dropWhile_append_my]
  by_cases h3 : (r.reverse.dropWhile isSpace).isEmpty
  · rw [if_pos h3, h2]
    exact ⟨[], by simp⟩
  · rw [if_neg h3]
    exact ⟨(r.reverse.dropWhile isSpace).reverse, by simp⟩

/-- The written ExitNodes line is the keyword, a space, the stripped exit
string and a newline. -/
theorem exit_line_of_eq (e : List Char) :
    exit_line_of e = exitKw ++ (' ' :: (strip e ++ ['\n'])) := by
  have h : pystr "ExitNodes " = exitKw ++ [' '] := by decide
  simp [exit_line_of, h]

/-- Stripping the written ExitNodes line keeps the ExitNodes keyword prefix. -/
theorem exit_line_strip (e : List Char) : ∃ d, strip (exit_line_of e) = exitKw ++ d := by
  rw [exit_line_of_eq]
  exact strip_keyword_append exitKw _ (by decide) (by decide) (by decide)

/-- The written ExitNodes line passes the ExitNodes prefix test. -/
theorem exit_line_is_exit (e : List Char) :
    startswith exitKw (strip (exit_line_of e)) = true := by
  obtain ⟨d, hd⟩ := exit_line_strip e
  rw [hd]
  exact startswith_append_self _ _

/-- The written ExitNodes line fails the StrictNodes prefix test. -/
theorem exit_line_not_strict (e : List Char) :
    startswith strictKw (strip (exit_line_of e)) = false := by
  obtain ⟨d, hd⟩ := exit_line_strip e
  rw [hd]
  rw [show exitKw ++ d = 'E' :: (pystr "xitNodes" ++ d) from by simp [exitKw, pystr]]
  rw [show strictKw = 'S' :: pystr "trictNodes" from rfl]
  exact startswith_cons_ne _ _ (by decide) _ _

/-- ExitNodes-directive lines of the rewritten file: exactly the written one,
or none when the exit string strips to empty. -/
theorem exit_lines_set (c e : List Char) (s : Bool) (he : '\n' ∉ strip e) :
    exit_lines (set_tor_exit_policy c e s) =
      if strip e = [] then [] else [exit_line_of e] := by
  unfold exit_lines
  rw [set_lines_decomp c e s he]
  rw [List.filter_append, List.filter_append, List.filter_append]
  have hpre : (pre_lines c).filter (fun ln => startswith exitKw (strip ln)) = [] := by
    rw [List.filter_eq_nil_iff]
    intro ln hln
    have h := pre_lines_nonpolicy c ln hln
    have h2 := (Bool.or_eq_false_iff.mp (by simpa [is_policy_line] using h)).1
    simp [h2]
  have hmk : List.filter (fun ln => startswith exitKw (strip ln)) [inner_marker_line] = [] := by
    decide
  have hst : List.filter (fun ln => startswith exitKw (strip ln)) [strict_line_of s] = [] := by
    cases s <;> decide
  rw [hpre, hmk, hst]
  by_cases h : strip e = []
  · simp [h]
  · rw [if_neg h]
    simp [List.filter_cons, exit_line_is_exit e]

/-- StrictNodes-directive lines of the rewritten file: exactly the written one. -/
theorem strict_lines_set (c e : List Char) (s : Bool) (he : '\n' ∉ strip e) :
    strict_lines (set_tor_exit_policy c e s) = [strict_line_of s] := by
  unfold strict_lines
  rw [set_lines_decomp c e s he]
  rw [List.filter_append, List.filter_append, List.filter_append]
  have hpre : (pre_lines c).filter (fun ln => startswith strictKw (strip ln)) = [] := by
    rw [List.filter_eq_nil_iff]
    intro ln hln
    have h := pre_lines_nonpolicy c ln hln
    have h2 := (Bool.or_eq_false_iff.mp (by simpa [is_policy_line] using h)).2
    simp [h2]
  have hmk : List.filter (fun ln => startswith strictKw (strip ln)) [inner_marker_line] = [] := by
    decide
  have hst : List.filter (fun ln => startswith strictKw (strip ln)) [strict_line_of s] =
      [strict_line_of s] := by
    cases s <;> decide
  have hex : List.filter (fun ln => startswith strictKw (strip ln))
      (if strip e = [] then [] else [exit_line_of e]) = [] := by
    by_cases h : strip e = []
    · simp [h]
    · rw [if_neg h]
      simp [List.filter_cons, exit_line_not_strict e]
  rw [hpre, hmk, hst, hex]
  simp

/-
Models of the remaining functions the claims concern: the fallible file
wrapper of set_tor_exit_policy, apply_prefer_ru_then_fallback,
parse_interval and change_ip_repeatedly.
-/

/-- The error helper terminates the process exactly when its exit code is
positive (from the source: if exit_code is greater than 0, sys.exit). -/
def error_is_fatal (exit_code : Nat) : Bool := decide (0 < exit_code)

/-- set_tor_exit_policy with its fallible file accesses made explicit: a
missing path is exit code 20, a read failure exit code 22, a write failure
exit code 23; otherwise the rewritten content is written back. -/
def set_tor_exit_policy_io (path_ok : Bool) (read_result : Option (List Char))
    (write_ok : Bool) (exit_nodes : List Char) (strict : Bool) :
    Except Nat (List Char) :=
  if path_ok = false then .error 20
  else
    match read_result with
    | none => .error 22
    | some content =>
      if write_ok then .ok (set_tor_exit_policy content exit_nodes strict)
      else .error 23

/-- Python str.split on a single separator character: every separator splits,
and empty fragments are kept. -/
def split_onAux (sep : Char) : List Char → List Char → List (List Char)
  | [], acc => [acc.reverse]
  | c :: cs, acc =>
    if c = sep then acc.reverse :: split_onAux sep cs []
    else split_onAux sep cs (c :: acc)

/-- Python str.split with a one-character separator. -/
def split_on (sep : Char) (s : List Char) : List (List Char) := split_onAux sep s []

/-- The strict RU exit string written by the preferred branch. -/
def ru_exits : List Char := pystr "\x7bru\x7d"

/-- apply_prefer_ru_then_fallback, modelled on the torrc content: write the
strict RU policy, restart, probe (probe1, an Option because the probe can
fail); on success the RU policy stays; on failure write the fallback policy
(unconstrained for "any" or empty, else the cleaned country list, non-strict),
restart and probe again (probe2).  The second probe only affects logging, so
the resulting content does not depend on probe2. -/
def apply_prefer_ru_then_fallback (content fallback_exits : List Char)
    (probe1 probe2 : Option (List Char)) : List Char :=
  let c1 := set_tor_exit_policy content ru_exits true
  match probe1 with
  | some _ => c1
  | none =>
    let fb := lower (strip fallback_exits)
    if fb = pystr "any" ∨ fb = [] then set_tor_exit_policy c1 [] false
    else
      let countries :=
        ((split_on ',' fb).filter (fun c => ¬ strip c = [])).map (fun c => lower (strip c))
      let exit_nodes :=
        List.intercalate (pystr ",") (countries.map (fun c => pystr "\x7b" ++ c ++ pystr "\x7d"))
      set_tor_exit_policy c1 exit_nodes false

/-- Digit-string evaluation used by the int model. -/
def digitsToNatAux : List Char → Nat → Option Nat
  | [], acc => some acc
  | c :: cs, acc =>
    if c.isDigit then digitsToNatAux cs (acc * 10 + (c.toNat - 48)) else none

/-- Python int(str): optional surrounding whitespace, an optional single
sign, then a non-empty ASCII digit string; anything else raises ValueError,
modelled as none.  (Underscore digit grouping and non-ASCII digits are not
modelled; no input in this development uses them.) -/
def pyInt (s : List Char) : Option Int :=
  match strip s with
  | [] => none
  | a :: ds =>
    if a = '+' then
      if ds = [] then none else (digitsToNatAux ds 0).map (fun n => Int.ofNat n)
    else if a = '-' then
      if ds = [] then none else (digitsToNatAux ds 0).map (fun n => -(Int.ofNat n))
    else (digitsToNatAux (a :: ds) 0).map (fun n => Int.ofNat n)

/-- Python str.split(sep, 1): the fragment before the first separator and
the remainder after it. -/
def splitOnce (sep : Char) : List Char → List Char × List Char
  | [] => ([], [])
  | c :: cs =>
    if c = sep then ([], cs)
    else
      let p := splitOnce sep cs
      (c :: p.1, p.2)

/-- random.randint(a, b) for a well-formed range, with the generator draw
made an explicit seed: a uniformly sampled value is some a + seed mod
(b - a + 1), and every seed value must yield a result in the inclusive
range. -/
def randint (a b : Int) (seed : Nat) : Int := a + ((seed % (b - a + 1).toNat : Nat) : Int)

/-- parse_interval: a string containing a dash is split once and parsed as
an inclusive range sampled by randint (Python randint raises ValueError when
the lower bound exceeds the upper, caught by the same handler); otherwise
the whole string is parsed as an int.  Any ValueError becomes the fatal
exit code 8. -/
def parse_interval (interval_str : List Char) (seed : Nat) : Except Nat Int :=
  if '-' ∈ interval_str then
    match pyInt (splitOnce '-' interval_str).1, pyInt (splitOnce '-' interval_str).2 with
    | some a, some b => if a ≤ b then .ok (randint a b seed) else .error 8
    | _, _ => .error 8
  else
    match pyInt interval_str with
    | some n => .ok n
    | none => .error 8

/-- Observable events of the rotation flow. -/
inductive Ev
  | internetCheck
  | banner
  | serviceStart
  | bootstrapWait
  | sleepInterval (t : Int)
  | reload
  | circuitWait
  | probe
  | printIp
  | fatal (code : Nat)
deriving DecidableEq

/-- One iteration of change_ip_repeatedly: parse the interval afresh (fatal
exit code on a malformed string), sleep that long, then change_ip = reload,
a fixed circuit wait and a probe whose result, if any, is printed. -/
def iteration_trace (istr : List Char) (seed : Nat) (probe_ok : Bool) : List Ev :=
  match parse_interval istr seed with
  | .error code => [.fatal code]
  | .ok t => [.sleepInterval t, .reload, .circuitWait, .probe] ++
      (if probe_ok then [.printIp] else [])

/-- Whether a trace ended in a fatal process exit. -/
def has_fatal (tr : List Ev) : Bool :=
  tr.any fun e => match e with
    | .fatal _ => true
    | _ => false

/-- Consecutive loop iterations starting at iteration index i; a fatal exit
ends the trace.  Interrupts are absent in this model. -/
def loop_trace (istr : List Char) (seeds : Nat → Nat) (probes : Nat → Bool) :
    Nat → Nat → List Ev
  | _, 0 => []
  | i, n + 1 =>
    let tr := iteration_trace istr (seeds i) (probes i)
    if has_fatal tr then tr else tr ++ loop_trace istr seeds probes (i + 1) n

/-- change_ip_repeatedly: count = 0 loops without bound (fuel bounds how many
iterations of the unbounded loop are observed), otherwise the loop body runs
for exactly the range of count. -/
def change_ip_repeatedly (istr : List Char) (count : Nat) (seeds : Nat → Nat)
    (probes : Nat → Bool) (fuel : Nat) : List Ev :=
  if count = 0 then loop_trace istr seeds probes 0 fuel
  else loop_trace istr seeds probes 0 count

/-- The rotation-relevant slice of main (without the prefer-ru branch): the
internet check, the banner, initialize_environment starting the service, a
fixed startup wait, then change_ip_repeatedly.  No interval validation
happens before the loop. -/
def main_trace (istr : List Char) (count : Nat) (seeds : Nat → Nat)
    (probes : Nat → Bool) (fuel : Nat) : List Ev :=
  [.internetCheck, .banner, .serviceStart, .bootstrapWait] ++
    change_ip_repeatedly istr count seeds probes fuel

/-- Count of reload actions in a trace: one per completed rotation. -/
def reload_count (tr : List Ev) : Nat :=
  tr.countP fun e => match e with
    | .reload => true
    | _ => false

/-- Membership in the stripped string implies membership in the string. -/
theorem mem_of_mem_strip {a : Char} {s : List Char} (h : a ∈ strip s) : a ∈ s := by
  unfold strip rstrip lstrip at h
  have h1 := List.mem_reverse.mp h
  have h2 := (List.dropWhile_sublist isSpace).subset h1
  have h3 := List.mem_reverse.mp h2
  exact (List.dropWhile_sublist isSpace).subset h3

/-- The fragment before the first separator never contains the separator. -/
theorem splitOnce_fst_not_mem (sep : Char) : ∀ s : List Char, sep ∉ (splitOnce sep s).1 := by
  intro s
  induction s with
  | nil => simp [splitOnce]
  | cons c cs ih =>
    by_cases h : c = sep
    · simp [splitOnce, h]
    · simp only [splitOnce, if_neg h]
      intro hm
      rcases List.mem_cons.mp hm with h1 | h1
      · exact h h1.symm
      · exact ih h1

/-- A successful int parse of a string without a minus sign is nonnegative. -/
theorem pyInt_nonneg {s : List Char} (hns : '-' ∉ s) :
    ∀ {v : Int}, pyInt s = some v → 0 ≤ v := by
  intro v h
  unfold pyInt at h
  split at h
  · exact absurd h (by simp)
  · rename_i a ds hs
    split at h
    · split at h
      · exact absurd h (by simp)
      · obtain ⟨n, _, hn⟩ := Option.map_eq_some'.mp h
        rw [← hn]
        exact Int.natCast_nonneg n
    · split at h
      · rename_i _ ha
        subst ha
        exact absurd (mem_of_mem_strip (by rw [hs]; exact List.mem_cons_self _ _)) hns
      · obtain ⟨n, _, hn⟩ := Option.map_eq_some'.mp h
        rw [← hn]
        exact Int.natCast_nonneg n

/-- parse_interval on the concrete string abc is the fatal exit code 8 for
every generator draw. -/
theorem parse_abc (seed : Nat) : parse_interval (pystr "abc") seed = .error 8 := rfl

/-- C6: parse_interval of "60" is 60 on every draw; parse_interval of
"30-120" always succeeds with a value in the inclusive range 30..120, never
outside it; parse_interval of "abc" is the fatal malformed-interval error
with exit code 8, and that code terminates the process. -/
theorem c6_parse_interval_values :
    (∀ seed, parse_interval (pystr "60") seed = .ok 60) ∧
    (∀ seed, parse_interval (pystr "30-120") seed = .ok (30 + ((seed % 91 : Nat) : Int)) ∧
      30 ≤ 30 + ((seed % 91 : Nat) : Int) ∧ 30 + ((seed % 91 : Nat) : Int) ≤ 120) ∧
    (∀ seed, parse_interval (pystr "abc") seed = .error 8) ∧
    error_is_fatal 8 = true := by
  refine ⟨fun seed => rfl, fun seed => ⟨rfl, ?_, ?_⟩, parse_abc, rfl⟩
  · omega
  · have : seed % 91 < 91 := Nat.mod_lt _ (by omega)
    omega

/-- C9: an interval string beginning with a dash is split into an empty
lower bound whose int parse fails, so parse_interval terminates fatally with
exit code 8 on every draw; and a successful parse never returns a negative
value, so a negative fixed interval is never handed to the caller. -/
theorem c9_leading_dash_fatal :
    (∀ rest seed, parse_interval ('-' :: rest) seed = .error 8) ∧
    (∀ istr seed v, parse_interval istr seed = .ok v → 0 ≤ v) := by
  constructor
  · intro rest seed
    have hm : '-' ∈ '-' :: rest := List.mem_cons_self _ _
    have h1 : (splitOnce '-' ('-' :: rest)).1 = [] := by simp [splitOnce]
    unfold parse_interval
    rw [if_pos hm, h1]
    have h2 : pyInt [] = none := rfl
    rw [h2]
  · intro istr seed v h
    unfold parse_interval at h
    by_cases hm : '-' ∈ istr
    · rw [if_pos hm] at h
      split at h
      · rename_i a b h1 h2
        by_cases hab : a ≤ b
        · rw [if_pos hab] at h
          have hv : randint a b seed = v := Except.ok.inj h
          have ha : 0 ≤ a := pyInt_nonneg (splitOnce_fst_not_mem '-' istr) h1
          have hnn : (0 : Int) ≤ ((seed % (b - a + 1).toNat : Nat) : Int) :=
            Int.natCast_nonneg _
          rw [← hv]
          unfold randint
          omega
        · rw [if_neg hab] at h
          exact absurd h (by simp)
      · exact absurd h (by simp)
    · rw [if_neg hm] at h
      cases h1 : pyInt istr with
      | none => rw [h1] at h; exact absurd h (by simp)
      | some n =>
        rw [h1] at h
        have hv : n = v := Except.ok.inj h
        rw [← hv]
        exact pyInt_nonneg hm h1

/-- Witness for C9 at concrete inputs. -/
theorem c9_leading_dash_fatal_witness :
    parse_interval ('-' :: pystr "5") 0 = .error 8 ∧ (0 : Int) ≤ 60 :=
  ⟨c9_leading_dash_fatal.1 (pystr "5") 0,
   c9_leading_dash_fatal.2 (pystr "60") 0 60 rfl⟩

/-- C4 counterexample: with the malformed interval "abc", the fatal code-8
event happens only after the service has been started (and the startup
wait), not at program startup before the rotation loop: the service-start
event strictly precedes the fatal event in the main trace. -/
theorem c4_counterexample_detection_site :
    Ev.fatal 8 ∈ main_trace (pystr "abc") 1 (fun _ => 0) (fun _ => true) 1 ∧
    List.indexOf Ev.serviceStart (main_trace (pystr "abc") 1 (fun _ => 0) (fun _ => true) 1) <
      List.indexOf (Ev.fatal 8) (main_trace (pystr "abc") 1 (fun _ => 0) (fun _ => true) 1) := by
  decide

/-- C4 amended: a malformed interval string is a fatal error with exit code
8 raised by parse_interval at the start of the first rotation iteration,
inside the loop - after the internet check, the banner, the service start
and the startup wait - and before any interval sleep or reload; because the
error terminates the process it is raised once, but no validation happens at
startup before the loop begins. -/
theorem c4_amended_first_iteration (count : Nat) (seeds : Nat → Nat)
    (probes : Nat → Bool) (fuel : Nat) (hf : 0 < fuel) :
    main_trace (pystr "abc") count seeds probes fuel =
      [.internetCheck, .banner, .serviceStart, .bootstrapWait, .fatal 8] := by
  unfold main_trace change_ip_repeatedly
  by_cases h : count = 0
  · rw [if_pos h]
    obtain ⟨m, rfl⟩ : ∃ m, fuel = m + 1 := ⟨fuel - 1, by omega⟩
    simp [loop_trace, iteration_trace, parse_abc, has_fatal]
  · rw [if_neg h]
    obtain ⟨m, rfl⟩ : ∃ m, count = m + 1 := ⟨count - 1, by omega⟩
    simp [loop_trace, iteration_trace, parse_abc, has_fatal]

/-- Witness for the amended C4 statement in unbounded mode. -/
theorem c4_amended_first_iteration_witness :
    main_trace (pystr "abc") 0 (fun _ => 0) (fun _ => true) 1 =
      [.internetCheck, .banner, .serviceStart, .bootstrapWait, .fatal 8] :=
  c4_amended_first_iteration 0 (fun _ => 0) (fun _ => true) 1 (by decide)

/-- A successfully parsed iteration contributes its fixed event shape. -/
theorem iteration_trace_ok {istr : List Char} {seed : Nat} {t : Int}
    (h : parse_interval istr seed = .ok t) (probe_ok : Bool) :
    iteration_trace istr seed probe_ok =
      [.sleepInterval t, .reload, .circuitWait, .probe] ++
        (if probe_ok then [.printIp] else []) := by
  simp [iteration_trace, h]

/-- A successfully parsed iteration has one reload and no fatal event. -/
theorem iteration_trace_counts {istr : List Char} {seed : Nat}
    (h : ∃ t, parse_interval istr seed = .ok t) (probe_ok : Bool) :
    reload_count (iteration_trace istr seed probe_ok) = 1 ∧
    has_fatal (iteration_trace istr seed probe_ok) = false := by
  obtain ⟨t, ht⟩ := h
  rw [iteration_trace_ok ht]
  cases probe_ok <;> simp [reload_count, has_fatal]

/-- Under a parseable interval the loop runs all its iterations in order. -/
theorem loop_trace_eq_flatten (istr : List Char) (seeds : Nat → Nat)
    (probes : Nat → Bool) (h : ∀ i, ∃ t, parse_interval istr (seeds i) = .ok t) :
    ∀ n i, loop_trace istr seeds probes i n =
      ((List.range n).map
        (fun j => iteration_trace istr (seeds (i + j)) (probes (i + j)))).flatten := by
  intro n
  induction n with
  | zero => intro i; simp [loop_trace]
  | succ m ih =>
    intro i
    have h2 := (iteration_trace_counts (h i) (probes i)).2
    simp only [loop_trace, h2, if_neg Bool.false_ne_true]
    rw [ih (i + 1), List.range_succ_eq_map]
    simp only [List.map_cons, List.map_map, List.flatten_cons, Nat.add_zero]
    have hfun : (fun j => iteration_trace istr (seeds (i + 1 + j)) (probes (i + 1 + j))) =
        ((fun j => iteration_trace istr (seeds (i + j)) (probes (i + j))) ∘ Nat.succ) := by
      funext j
      have h3 : i + 1 + j = i + Nat.succ j := by omega
      simp [Function.comp, h3]
    rw [hfun]

/-- Under a parseable interval the loop performs exactly one reload per
iteration. -/
theorem loop_trace_reload_count (istr : List Char) (seeds : Nat → Nat)
    (probes : Nat → Bool) (h : ∀ i, ∃ t, parse_interval istr (seeds i) = .ok t) :
    ∀ n i, reload_count (loop_trace istr seeds probes i n) = n := by
  intro n
  induction n with
  | zero => intro i; rfl
  | succ m ih =>
    intro i
    obtain ⟨h1, h2⟩ := iteration_trace_counts (h i) (probes i)
    simp only [loop_trace, h2, if_neg Bool.false_ne_true]
    have hsplit : reload_count (iteration_trace istr (seeds i) (probes i) ++
        loop_trace istr seeds probes (i + 1) m) =
          reload_count (iteration_trace istr (seeds i) (probes i)) +
            reload_count (loop_trace istr seeds probes (i + 1) m) := by
      unfold reload_count
      exact List.countP_append _ _ _
    rw [hsplit, h1, ih (i + 1)]
    omega

/-- C7: with a parseable interval string and no interruption, a positive
count makes change_ip_repeatedly perform exactly count sleep-reload-probe
iterations (one reload each, in order) and then stop, independently of the
observation bound; count = 0 never stops on its own: every observation bound
fuel exhibits exactly fuel completed iterations. -/
theorem c7_rotation_count (istr : List Char) (seeds : Nat → Nat)
    (probes : Nat → Bool) (h : ∀ i, ∃ t, parse_interval istr (seeds i) = .ok t) :
    (∀ count fuel, 0 < count →
      change_ip_repeatedly istr count seeds probes fuel =
        ((List.range count).map
          (fun j => iteration_trace istr (seeds j) (probes j))).flatten ∧
      reload_count (change_ip_repeatedly istr count seeds probes fuel) = count) ∧
    (∀ fuel,
      change_ip_repeatedly istr 0 seeds probes fuel =
        ((List.range fuel).map
          (fun j => iteration_trace istr (seeds j) (probes j))).flatten ∧
      reload_count (change_ip_repeatedly istr 0 seeds probes fuel) = fuel) := by
  constructor
  · intro count fuel hc
    unfold change_ip_repeatedly
    rw [if_neg (by omega)]
    refine ⟨?_, loop_trace_reload_count istr seeds probes h count 0⟩
    have := loop_trace_eq_flatten istr seeds probes h count 0
    simpa using this
  · intro fuel
    unfold change_ip_repeatedly
    rw [if_pos rfl]
    refine ⟨?_, loop_trace_reload_count istr seeds probes h fuel 0⟩
    have := loop_trace_eq_flatten istr seeds probes h fuel 0
    simpa using this

/-- Witness for C7: three rotations with a fixed 60-second interval. -/
theorem c7_rotation_count_witness :
    reload_count (change_ip_repeatedly (pystr "60") 3 (fun _ => 0) (fun _ => true) 0) = 3 :=
  ((c7_rotation_count (pystr "60") (fun _ => 0) (fun _ => true)
    (fun _ => ⟨60, rfl⟩)).1 3 0 (by decide)).2

/-- An element of a line list is a contiguous segment of its flattening. -/
theorem flatten_mem_split {x : List Char} :
    ∀ {X : List (List Char)}, x ∈ X → ∃ A B, X.flatten = A ++ x ++ B := by
  intro X hx
  induction X with
  | nil => cases hx
  | cons y ys ih =>
    rcases List.mem_cons.mp hx with h | h
    · exact ⟨[], ys.flatten, by simp [h]⟩
    · obtain ⟨A, B, hAB⟩ := ih h
      exact ⟨y ++ A, B, by simp [hAB, List.append_assoc]⟩

/-- C5: set_tor_exit_policy removes exactly the lines whose stripped form
begins with the ExitNodes or StrictNodes keyword: the file is precisely the
concatenation of its lines; the rewritten file is the concatenation of the
kept lines, verbatim and in their original order, followed by the appended
marker and directives; and every non-policy input line reappears verbatim
as a contiguous segment of the output. -/
theorem c5_frame_preservation (c e : List Char) (s : Bool) :
    (readlines c).flatten = c ∧
    set_tor_exit_policy c e s =
      ((readlines c).filter (fun ln => ! is_policy_line ln)).flatten ++
        marker_chars ++ tail_chars e s ∧
    ∀ ln ∈ readlines c, is_policy_line ln = false →
      ∃ pre post, set_tor_exit_policy c e s = pre ++ (ln ++ post) := by
  refine ⟨readlines_flatten c, set_chars_eq c e s, ?_⟩
  intro ln hln hnp
  have hmem : ln ∈ (readlines c).filter (fun l => ! is_policy_line l) :=
    List.mem_filter.mpr ⟨hln, by simp [hnp]⟩
  obtain ⟨A, B, hAB⟩ := flatten_mem_split hmem
  refine ⟨A, B ++ (marker_chars ++ tail_chars e s), ?_⟩
  rw [set_chars_eq c e s]
  unfold joined_kept
  rw [hAB]
  simp [List.append_assoc]

/-- Witness for C5 at a concrete file with one non-policy and one policy line. -/
theorem c5_frame_preservation_witness :
    (readlines (pystr "a\nExitNodes x\n")).flatten = pystr "a\nExitNodes x\n" ∧
    set_tor_exit_policy (pystr "a\nExitNodes x\n") ru_exits true =
      ((readlines (pystr "a\nExitNodes x\n")).filter
        (fun ln => ! is_policy_line ln)).flatten ++ marker_chars ++ tail_chars ru_exits true :=
  ⟨(c5_frame_preservation (pystr "a\nExitNodes x\n") ru_exits true).1,
   (c5_frame_preservation (pystr "a\nExitNodes x\n") ru_exits true).2.1⟩

/-- C8: with the file accesses made explicit, a read failure is the fatal
exit code 22 and a write failure the fatal exit code 23; the codes differ,
and both are positive, so the error helper terminates the process rather
than swallowing either failure. -/
theorem c8_distinct_error_codes :
    (∀ w e s, set_tor_exit_policy_io true none w e s = .error 22) ∧
    (∀ c e s, set_tor_exit_policy_io true (some c) false e s = .error 23) ∧
    (22 : Nat) ≠ 23 ∧ error_is_fatal 22 = true ∧ error_is_fatal 23 = true := by
  exact ⟨fun w e s => rfl, fun c e s => rfl, by decide, rfl, rfl⟩

/-- C2 counterexample: writing the same policy twice is not byte-identical
to writing it once, already on the empty file: each write leaves one more
blank-line-plus-marker-comment block behind. -/
theorem c2_counterexample_marker_accumulation :
    set_tor_exit_policy (set_tor_exit_policy [] ru_exits true) ru_exits true ≠
      set_tor_exit_policy [] ru_exits true := by decide

/-- C2 amended: for any newline-free exit string, one application yields the
kept lines, one marker block and the directive tail; a second identical
application yields the same content except for one extra marker block - the
directive lines themselves are not duplicated, but byte-identical idempotence
fails by exactly the accumulated marker. -/
theorem c2_amended_write_shape (c e : List Char) (s : Bool) (he : '\n' ∉ e) :
    set_tor_exit_policy c e s = joined_kept c ++ marker_chars ++ tail_chars e s ∧
    set_tor_exit_policy (set_tor_exit_policy c e s) e s =
      joined_kept c ++ marker_chars ++ marker_chars ++ tail_chars e s := by
  have he2 : '\n' ∉ strip e := fun hm => he (mem_of_mem_strip hm)
  refine ⟨set_chars_eq c e s, ?_⟩
  have hjk : joined_kept (set_tor_exit_policy c e s) = joined_kept c ++ marker_chars := by
    have hL : joined_kept (set_tor_exit_policy c e s) =
        ((readlines (set_tor_exit_policy c e s)).filter
          (fun ln => ! is_policy_line ln)).flatten := rfl
    have hpre : (pre_lines c).filter (fun ln => ! is_policy_line ln) = pre_lines c := by
      rw [List.filter_eq_self]
      intro ln hln
      simp [pre_lines_nonpolicy c ln hln]
    have hmk : List.filter (fun ln => ! is_policy_line ln) [inner_marker_line] =
        [inner_marker_line] := by decide
    have hex : List.filter (fun ln => ! is_policy_line ln)
        (if strip e = [] then [] else [exit_line_of e]) = [] := by
      by_cases h : strip e = []
      · simp [h]
      · rw [if_neg h]
        have hp : is_policy_line (exit_line_of e) = true := by
          simp [is_policy_line, exit_line_is_exit e]
        simp [List.filter_cons, hp]
    have hst : List.filter (fun ln => ! is_policy_line ln) [strict_line_of s] = [] := by
      cases s <;> decide
    have hf : (pre_lines c).flatten = joined_kept c ++ ['\n'] := readlines_flatten _
    rw [hL, set_lines_decomp c e s he2, List.filter_append, List.filter_append,
      List.filter_append, hpre, hmk, hex, hst]
    simp only [List.flatten_append, List.flatten_cons, List.flatten_nil, List.append_nil]
    rw [hf, marker_chars_eq]
    simp
  rw [set_chars_eq (set_tor_exit_policy c e s) e s, hjk]

/-- Witness for the amended C2 statement at a concrete file and policy. -/
theorem c2_amended_write_shape_witness :
    set_tor_exit_policy (pystr "a\n") ru_exits true =
      joined_kept (pystr "a\n") ++ marker_chars ++ tail_chars ru_exits true ∧
    set_tor_exit_policy (set_tor_exit_policy (pystr "a\n") ru_exits true) ru_exits true =
      joined_kept (pystr "a\n") ++ marker_chars ++ marker_chars ++ tail_chars ru_exits true :=
  c2_amended_write_shape (pystr "a\n") ru_exits true (by decide)

/-- C3 counterexample: the whitespace-only exit string is non-empty, yet the
rewritten file contains no ExitNodes line, because the source tests the
stripped exit string rather than the exit string itself. -/
theorem c3_counterexample_whitespace_exit :
    ¬ (pystr " " = []) ∧
    exit_lines (set_tor_exit_policy [] (pystr " ") true) = [] := by decide

/-- C3 amended: for any newline-free exit string, the rewritten file is the
kept non-policy lines, then the marker comment line, then exactly one
ExitNodes line when the exit string is non-empty after stripping whitespace
and none otherwise, then exactly one StrictNodes line - so the directive
lines sit after the marker with ExitNodes preceding StrictNodes, and their
counts are one or zero and one respectively, regardless of how many policy
lines the file held before. -/
theorem c3_amended_directive_layout (c e : List Char) (s : Bool) (he : '\n' ∉ e) :
    readlines (set_tor_exit_policy c e s) =
      pre_lines c ++ [inner_marker_line] ++
        (if strip e = [] then [] else [exit_line_of e]) ++ [strict_line_of s] ∧
    (∀ ln ∈ pre_lines c, is_policy_line ln = false) ∧
    (exit_lines (set_tor_exit_policy c e s)).length = (if strip e = [] then 0 else 1) ∧
    (strict_lines (set_tor_exit_policy c e s)).length = 1 := by
  have he2 : '\n' ∉ strip e := fun hm => he (mem_of_mem_strip hm)
  refine ⟨set_lines_decomp c e s he2, pre_lines_nonpolicy c, ?_, ?_⟩
  · rw [exit_lines_set c e s he2]
    by_cases h : strip e = [] <;> simp [h]
  · rw [strict_lines_set c e s he2]
    rfl

/-- Witness for the amended C3 statement on a file already holding one
directive line of each kind. -/
theorem c3_amended_directive_layout_witness :
    (exit_lines (set_tor_exit_policy (pystr "a\nExitNodes old\nStrictNodes 1\n")
        (pystr "\x7bru\x7d") true)).length = 1 ∧
    (strict_lines (set_tor_exit_policy (pystr "a\nExitNodes old\nStrictNodes 1\n")
        (pystr "\x7bru\x7d") true)).length = 1 := by
  have h := c3_amended_directive_layout (pystr "a\nExitNodes old\nStrictNodes 1\n")
    (pystr "\x7bru\x7d") true (by decide)
  exact ⟨h.2.2.1.trans (by decide), h.2.2.2⟩

/-- C1: when the preferred strict RU probe comes back empty, a fallback
specification of "any" or the empty string leaves the file with no ExitNodes
line and a single StrictNodes 0 line, and a fallback list "de,nl" leaves the
non-strict ExitNodes preference for de then nl in caller order - written
unconditionally, since the resulting file is the same for every outcome p2
of the fallback verification probe, including an empty one. -/
theorem c1_fallback_policies (content : List Char) (p2 : Option (List Char)) :
    apply_prefer_ru_then_fallback content (pystr "any") none p2 =
      set_tor_exit_policy (set_tor_exit_policy content ru_exits true) [] false ∧
    apply_prefer_ru_then_fallback content [] none p2 =
      set_tor_exit_policy (set_tor_exit_policy content ru_exits true) [] false ∧
    exit_lines (apply_prefer_ru_then_fallback content (pystr "any") none p2) = [] ∧
    strict_lines (apply_prefer_ru_then_fallback content (pystr "any") none p2) =
      [pystr "StrictNodes 0\n"] ∧
    apply_prefer_ru_then_fallback content (pystr "de,nl") none p2 =
      set_tor_exit_policy (set_tor_exit_policy content ru_exits true)
        (pystr "\x7bde\x7d,\x7bnl\x7d") false ∧
    exit_lines (apply_prefer_ru_then_fallback content (pystr "de,nl") none p2) =
      [pystr "ExitNodes \x7bde\x7d,\x7bnl\x7d\n"] ∧
    strict_lines (apply_prefer_ru_then_fallback content (pystr "de,nl") none p2) =
      [pystr "StrictNodes 0\n"] := by
  have hany : apply_prefer_ru_then_fallback content (pystr "any") none p2 =
      set_tor_exit_policy (set_tor_exit_policy content ru_exits true) [] false := rfl
  have hdenl : apply_prefer_ru_then_fallback content (pystr "de,nl") none p2 =
      set_tor_exit_policy (set_tor_exit_policy content ru_exits true)
        (pystr "\x7bde\x7d,\x7bnl\x7d") false := rfl
  refine ⟨hany, rfl, ?_, ?_, hdenl, ?_, ?_⟩
  · rw [hany, exit_lines_set _ [] false (by decide)]
    rfl
  · rw [hany, strict_lines_set _ [] false (by decide)]
    rfl
  · rw [hdenl, exit_lines_set _ _ false (by decide)]
    decide
  · rw [hdenl, strict_lines_set _ _ false (by decide)]
    rfl

/-- C10: the fallback specification is stripped and lowercased before the
comparison, so " ANY " and "ANY" take the unconstrained branch; and a
fallback that is non-empty but contains no country codes after splitting on
commas produces an empty exit string and hence exactly the same
unconstrained non-strict on-disk policy as "any". -/
theorem c10_fallback_normalization (content : List Char) (p2 : Option (List Char)) :
    apply_prefer_ru_then_fallback content (pystr " ANY ") none p2 =
      apply_prefer_ru_then_fallback content (pystr "any") none p2 ∧
    apply_prefer_ru_then_fallback content (pystr "ANY") none p2 =
      apply_prefer_ru_then_fallback content (pystr "any") none p2 ∧
    apply_prefer_ru_then_fallback content (pystr ",,") none p2 =
      apply_prefer_ru_then_fallback content (pystr "any") none p2 ∧
    apply_prefer_ru_then_fallback content (pystr " , ") none p2 =
      apply_prefer_ru_then_fallback content (pystr "any") none p2 ∧
    apply_prefer_ru_then_fallback content (pystr " ANY ") none p2 =
      set_tor_exit_policy (set_tor_exit_policy content ru_exits true) [] false :=
  ⟨rfl, rfl, rfl, rfl, rfl⟩

end Tornet
